import Mathlib

/-!
# Jukebox: a shallow embedding of `jukebox.go`

The program keeps two process-wide slices (`albums`, `musicians`) and serves
HTTP handlers over them.  Each handler is embedded as a pure function from the
store (and the decoded request) to a response and the next store.

Conventions of the embedding:

* the two package-level slices are `List`s: they are decoded from JSON arrays at
  startup and only ever appended to, so they are not nil (a startup file holding
  `null` is not modelled);
* a local slice variable declared by `var x []T` is an `Option (List T)`, `none`
  being the nil slice it starts as: `append` makes it non-nil, `sort.Slice`
  leaves a nil slice nil and `c.JSON` writes a nil slice as `null` and any other
  slice as an array;
* a Go `string` is a `String` (JSON decoding only produces valid UTF-8), `==` on
  strings is equality and `<` on strings is the byte-wise lexicographic
  comparison of the UTF-8 encodings (`stringLess`);
* `Price` is a `float64` decoded from JSON, hence a finite value; finite floats
  are rationals and `<`, `>=`, `<=` on them agree with the rational order, so
  the field is a `ℚ`;
* a request body is `Option`: `none` is a body that `encoding/json` cannot
  decode into the struct, `some a` is the decoded struct, absent fields being
  the zero value (`""`, `0`, `[]`);
* `fmt.Sprintf("%d", n)` on a non-negative `int` is the decimal rendering
  `Nat.repr n`;
* `sort.Slice` is the standard library insertion sort
  (`insertionSortLessFunc`), which is what the library runs on slices of at most
  12 elements.  On longer slices the library runs an unstable pattern-defeating
  quicksort, which may leave elements that compare equal in another order; the
  theorems below use the sort only through "sorted permutation", which holds of
  both.
-/

namespace Jukebox

/-! ## Data model (`jukebox.go` lines 13-34) -/

/-- Album represents a music album. -/
structure Album where
  ID : String
  Name : String
  DateOfRelease : String
  Genre : String
  Price : ℚ
  Description : String
  Musicians : List String
deriving DecidableEq

/-- Musician represents a musician. -/
structure Musician where
  ID : String
  Name : String
  MusicianType : String
deriving DecidableEq

/-- The two package-level variables `albums` and `musicians`. -/
structure Store where
  albums : List Album
  musicians : List Musician
deriving DecidableEq

/-- The JSON document written by `c.JSON`: the `gin.H` error of a failed bind (its
text comes from the validator), a `gin.H` with a fixed text under `"error"` or
under `"message"`, the document `null` (what a nil slice is written as), or an
array of records. -/
inductive Body where
  | bindError : Body
  | error : String → Body
  | message : String → Body
  | null : Body
  | albums : List Album → Body
  | musicians : List Musician → Body
deriving DecidableEq

/-- Status code and body passed to `c.JSON`. -/
structure Response where
  status : Nat
  body : Body
deriving DecidableEq

def StatusOK : Nat := 200
def StatusCreated : Nat := 201
def StatusBadRequest : Nat := 400
def StatusInternalServerError : Nat := 500

/-! ## Library behaviour used by the handlers -/

/-- UTF-8 encoding of one code point, as the bytes a Go string holds. -/
def utf8Bytes (c : Char) : List Nat :=
  let n := c.toNat
  if n < 0x80 then [n]
  else if n < 0x800 then [0xC0 + n / 64, 0x80 + n % 64]
  else if n < 0x10000 then [0xE0 + n / 4096, 0x80 + (n / 64) % 64, 0x80 + n % 64]
  else [0xF0 + n / 262144, 0x80 + (n / 4096) % 64, 0x80 + (n / 64) % 64, 0x80 + n % 64]

/-- The bytes of a Go string. -/
def goBytes (s : String) : List Nat :=
  s.toList.foldr (fun c acc => utf8Bytes c ++ acc) []

/-- Lexicographic comparison of byte sequences. -/
def bytesLess : List Nat → List Nat → Bool
  | _, [] => false
  | [], _ :: _ => true
  | x :: xs, y :: ys =>
    if x < y then true else if y < x then false else bytesLess xs ys

/-- Go's `a < b` on strings. -/
def stringLess (a b : String) : Bool :=
  bytesLess (goBytes a) (goBytes b)

/-- `fmt.Sprintf("%d", n)` for a non-negative `n`. -/
def sprintfD (n : Nat) : String :=
  Nat.repr n

/-- Inner loop of the insertion sort: the element `x` at index `j` is swapped with
its left neighbour while `less(j, j-1)` holds.  The argument is the part of the
slice to the left of `x`, nearest neighbour first. -/
def swapDown {α : Type} (less : α → α → Bool) (x : α) : List α → List α
  | [] => [x]
  | p :: ps => if less x p then p :: swapDown less x ps else x :: p :: ps

/-- The loop `for i := a + 1; i < b; i++ { for j := i; j > a && less(j, j-1); j-- { swap(j, j-1) } }`.
The accumulator is the already processed part of the slice, last element first. -/
def insertionSortLessFunc {α : Type} (less : α → α → Bool) (data : List α) : List α :=
  (data.foldl (fun done x => swapDown less x done) []).reverse

/-- `sort.Slice(x, less)`, with `less` given on elements rather than on indices. -/
def sortSlice {α : Type} (less : α → α → Bool) (x : List α) : List α :=
  insertionSortLessFunc less x

/-- The elements of a local slice variable, `none` being the nil slice. -/
def elems {α : Type} : Option (List α) → List α
  | none => []
  | some l => l

/-- `append(s, x)`: the result is never nil. -/
def goAppend {α : Type} (s : Option (List α)) (x : α) : Option (List α) :=
  some (elems s ++ [x])

/-- `sort.Slice(s, less)` on a local slice variable: a nil slice stays nil. -/
def sortSliceVar {α : Type} (less : α → α → Bool) (s : Option (List α)) : Option (List α) :=
  s.map (sortSlice less)

/-- `c.JSON(status, s)` for a slice of albums: a nil slice is written as `null`, any
other slice as an array. -/
def jsonAlbums : Option (List Album) → Body
  | none => Body.null
  | some l => Body.albums l

/-- `c.JSON(status, s)` for a slice of musicians: a nil slice is written as `null`,
any other slice as an array. -/
def jsonMusicians : Option (List Musician) → Body
  | none => Body.null
  | some l => Body.musicians l

/-- What `getMusicians` finds in `musician.json`: `ReadFile` fails, `Unmarshal`
fails, or the file decodes into the local variable `var musicians []Musician`
(left nil by a file holding `null`). -/
inductive MusicianFile where
  | unreadable : MusicianFile
  | malformed : MusicianFile
  | decoded : Option (List Musician) → MusicianFile

/-! ## Request binding (`binding:"..."` tags, lines 14-29) -/

/-- The validator tags of `Album`: `Name` is `required,min=5` (non-empty, at least
five runes), `DateOfRelease` is `required` (non-empty), `Price` is
`required,min=100,max=1000` (non-zero, `>= 100`, `<= 1000`). -/
def validateAlbum (a : Album) : Bool :=
  (a.Name != "" && decide (5 ≤ a.Name.length))
    && (a.DateOfRelease != "")
    && (a.Price != 0 && decide (100 ≤ a.Price) && decide (a.Price ≤ 1000))

/-- The validator tags of `Musician`: `Name` is `required,min=3`. -/
def validateMusician (m : Musician) : Bool :=
  m.Name != "" && decide (3 ≤ m.Name.length)

/-- `c.ShouldBindJSON(&album)`: decode, then validate; `none` is a non-nil `err`. -/
def shouldBindAlbum (body : Option Album) : Option Album :=
  match body with
  | none => none
  | some a => if validateAlbum a then some a else none

/-- `c.ShouldBindJSON(&musician)`: decode, then validate; `none` is a non-nil `err`. -/
def shouldBindMusician (body : Option Musician) : Option Musician :=
  match body with
  | none => none
  | some m => if validateMusician m then some m else none

/-! ## Upsert handlers (lines 74-118) -/

/-- The loop `for i, a := range albums { if a.ID == album.ID { albums[i] = album; return } }`:
`some` of the updated slice when an entry matched, `none` when the loop ran to
its end. -/
def updateAlbum (album : Album) : List Album → Option (List Album)
  | [] => none
  | a :: rest =>
    if a.ID = album.ID then some (album :: rest)
    else (updateAlbum album rest).map (fun r => a :: r)

/-- The loop `for i, m := range musicians { if m.ID == musician.ID { musicians[i] = musician; return } }`. -/
def updateMusician (musician : Musician) : List Musician → Option (List Musician)
  | [] => none
  | m :: rest =>
    if m.ID = musician.ID then some (musician :: rest)
    else (updateMusician musician rest).map (fun r => m :: r)

/-- Handler `createOrUpdateAlbum`. -/
def createOrUpdateAlbum (st : Store) (body : Option Album) : Response × Store :=
  match shouldBindAlbum body with
  | none => (⟨StatusBadRequest, Body.bindError⟩, st)
  | some bound =>
    let album := { bound with ID := sprintfD (st.albums.length + 1) }
    match updateAlbum album st.albums with
    | some albums' =>
      (⟨StatusOK, Body.message "Album updated successfully"⟩, { st with albums := albums' })
    | none =>
      (⟨StatusCreated, Body.message "Album created successfully"⟩,
        { st with albums := st.albums ++ [album] })

/-- Handler `createOrUpdateMusician`. -/
def createOrUpdateMusician (st : Store) (body : Option Musician) : Response × Store :=
  match shouldBindMusician body with
  | none => (⟨StatusBadRequest, Body.bindError⟩, st)
  | some bound =>
    let musician := { bound with ID := sprintfD (st.musicians.length + 1) }
    match updateMusician musician st.musicians with
    | some musicians' =>
      (⟨StatusOK, Body.message "Musician updated successfully"⟩,
        { st with musicians := musicians' })
    | none =>
      (⟨StatusCreated, Body.message "Musician created successfully"⟩,
        { st with musicians := st.musicians ++ [musician] })

/-! ## Query handlers (lines 120-190) -/

/-- Handler `getAlbums`: sorts the package-level slice in place and returns it. -/
def getAlbums (st : Store) : Response × Store :=
  let sorted := sortSlice (fun a b => stringLess a.DateOfRelease b.DateOfRelease) st.albums
  (⟨StatusOK, Body.albums sorted⟩, { st with albums := sorted })

/-- Handler `getMusicians`.  The file `musician.json` is outside the store and is
read afresh by every call. -/
def getMusicians (st : Store) (file : MusicianFile) : Response × Store :=
  match file with
  | MusicianFile.unreadable =>
    (⟨StatusInternalServerError, Body.error "failed to read musician data"⟩, st)
  | MusicianFile.malformed =>
    (⟨StatusInternalServerError, Body.error "failed to parse musician data"⟩, st)
  | MusicianFile.decoded musicians => (⟨StatusOK, jsonMusicians musicians⟩, st)

/-- The inner loop of `getAlbumsByMusician`: does `album.Musicians` hold `musicianID`
(the loop breaks at the first hit). -/
def hasMusician (musicianID : String) : List String → Bool
  | [] => false
  | musician :: rest => if musician = musicianID then true else hasMusician musicianID rest

/-- The outer loop of `getAlbumsByMusician` over the albums still to visit, the
second argument being `musicianAlbums` as built so far. -/
def collectAlbums (musicianID : String) :
    List Album → Option (List Album) → Option (List Album)
  | [], musicianAlbums => musicianAlbums
  | album :: rest, musicianAlbums =>
    if hasMusician musicianID album.Musicians then
      collectAlbums musicianID rest (goAppend musicianAlbums album)
    else collectAlbums musicianID rest musicianAlbums

/-- Handler `getAlbumsByMusician`, `musicianID` being `c.Param("id")`; the local
`var musicianAlbums []Album` starts nil. -/
def getAlbumsByMusician (st : Store) (musicianID : String) : Response × Store :=
  let musicianAlbums := collectAlbums musicianID st.albums none
  (⟨StatusOK,
    jsonAlbums (sortSliceVar (fun a b => decide (a.Price < b.Price)) musicianAlbums)⟩, st)

/-- The innermost loop of `getMusiciansForAlbum`: the first musician whose `ID` is
`musicianID`, if any. -/
def firstMusician (musicianID : String) : List Musician → Option Musician
  | [] => none
  | musician :: rest =>
    if musician.ID = musicianID then some musician else firstMusician musicianID rest

/-- The middle loop of `getMusiciansForAlbum`, over the entries of `album.Musicians`
still to visit, the last argument being `albumMusicians` as built so far. -/
def collectMusicians (musicians : List Musician) :
    List String → Option (List Musician) → Option (List Musician)
  | [], albumMusicians => albumMusicians
  | musicianID :: rest, albumMusicians =>
    match firstMusician musicianID musicians with
    | some musician => collectMusicians musicians rest (goAppend albumMusicians musician)
    | none => collectMusicians musicians rest albumMusicians

/-- The outer loop of `getMusiciansForAlbum`: stops at the first album whose `ID`
is `albumID`.  Nothing is appended to `albumMusicians` before that album, so the
variable is still nil when the middle loop starts and when no album matches. -/
def musiciansOfAlbum (musicians : List Musician) (albumID : String) :
    List Album → Option (List Musician)
  | [] => none
  | album :: rest =>
    if album.ID = albumID then collectMusicians musicians album.Musicians none
    else musiciansOfAlbum musicians albumID rest

/-- Handler `getMusiciansForAlbum`, `albumID` being `c.Param("id")`; the local
`var albumMusicians []Musician` starts nil. -/
def getMusiciansForAlbum (st : Store) (albumID : String) : Response × Store :=
  let albumMusicians := musiciansOfAlbum st.musicians albumID st.albums
  (⟨StatusOK,
    jsonMusicians (sortSliceVar (fun a b => stringLess a.Name b.Name) albumMusicians)⟩, st)

/-! ## Requests and runs -/

/-- One request to the router of `main`.  The `:id` path parameter of the two `PUT`
routes is not part of the upsert requests since the handlers never read it. -/
inductive Request where
  | upsertAlbum : Option Album → Request
  | upsertMusician : Option Musician → Request
  | listAlbums : Request
  | listMusicians : MusicianFile → Request
  | albumsByMusician : String → Request
  | musiciansForAlbum : String → Request

/-- Dispatch of one request to its handler. -/
def handle (st : Store) : Request → Response × Store
  | Request.upsertAlbum body => createOrUpdateAlbum st body
  | Request.upsertMusician body => createOrUpdateMusician st body
  | Request.listAlbums => getAlbums st
  | Request.listMusicians file => getMusicians st file
  | Request.albumsByMusician musicianID => getAlbumsByMusician st musicianID
  | Request.musiciansForAlbum albumID => getMusiciansForAlbum st albumID

/-- The store after serving a sequence of requests one after the other. -/
def run (st : Store) : List Request → Store
  | [] => st
  | r :: rs => run (handle st r).2 rs

/-- The responses of a sequence of album upserts served one after the other, and
the store after the last one. -/
def upsertAlbums (st : Store) : List Album → List Response × Store
  | [] => ([], st)
  | p :: ps =>
    let r := createOrUpdateAlbum st (some p)
    let rest := upsertAlbums r.2 ps
    (r.1 :: rest.1, rest.2)

/-! ## Definitions used to state the properties -/

/-- The albums-by-musician result in the words of the specification: the stored
albums whose musician list contains the identifier, in stored order. -/
def albumsByMusicianSpec (st : Store) (musicianID : String) : List Album :=
  st.albums.filter (fun a => decide (musicianID ∈ a.Musicians))

/-- The musicians-for-album result in the words of the specification, before
sorting: the first stored album with the identifier and, for each entry of its
musician list in turn, the first stored musician with that identifier, entries
without one being skipped; nothing when no album has the identifier. -/
def musiciansForAlbumSpec (st : Store) (albumID : String) : List Musician :=
  match st.albums.find? (fun x => decide (x.ID = albumID)) with
  | none => []
  | some album =>
    album.Musicians.filterMap (fun mid => st.musicians.find? (fun m => decide (m.ID = mid)))

/-- Identifiers that a later create could collide with are absent: no identifier is
the decimal rendering of a number above the length of the collection. -/
def FreshIds (ids : List String) : Prop :=
  ∀ j, ids.length < j → sprintfD j ∉ ids

/-- The payloads with the identifiers that sequential creates give them, the first
one getting `k + 1`. -/
def assignIDs (k : Nat) : List Album → List Album
  | [] => []
  | p :: ps => { p with ID := sprintfD (k + 1) } :: assignIDs (k + 1) ps

/-- What `sort.Slice` asks of `less`: asymmetry, and transitivity of "not less". -/
def StrictWeak {α : Type} (less : α → α → Bool) : Prop :=
  (∀ a b, less a b = true → less b a = false) ∧
    (∀ a b c, less a b = false → less b c = false → less a c = false)

/-- Value of a decimal digit character. -/
def digitVal (c : Char) : Nat := c.toNat - 48

/-- Reads a decimal numeral back, most significant digit first. -/
def decodeDigits (cs : List Char) : Nat :=
  cs.foldl (fun v c => 10 * v + digitVal c) 0

/-! ## Sample records -/

def albumA : Album :=
  ⟨"1", "Album A", "2021-03-01", "rock", 200, "", ["7"]⟩

def albumB : Album :=
  ⟨"2", "Album B", "2020-11-20", "jazz", 150, "", ["7", "7"]⟩

def albumC : Album :=
  ⟨"3", "Album C", "2019-01-05", "folk", 300, "", ["8"]⟩

def musician7 : Musician := ⟨"7", "Zed", "drums"⟩

def musician8 : Musician := ⟨"8", "Amy", "bass"⟩

def sampleStore : Store := ⟨[albumA, albumB, albumC], [musician7, musician8]⟩

/-! ## The handlers on the sample store -/

theorem getAlbums_sample :
    (getAlbums sampleStore).1.body = Body.albums [albumC, albumB, albumA] := by decide

theorem getAlbumsByMusician_sample :
    (getAlbumsByMusician sampleStore "7").1.body = Body.albums [albumB, albumA] := by decide

theorem getMusiciansForAlbum_sample :
    (getMusiciansForAlbum sampleStore "2").1.body = Body.musicians [musician7, musician7] := by
  decide

theorem createOrUpdateAlbum_sample_created :
    (createOrUpdateAlbum sampleStore (some albumA)).1.status = 201 := by decide

theorem createOrUpdateAlbum_sample_updated :
    (createOrUpdateAlbum ⟨[albumB], []⟩ (some albumA)).1.status = 200 := by decide

/-! ## Decimal rendering -/

theorem digitVal_digitChar (k : Nat) (hk : k < 10) : digitVal (Nat.digitChar k) = k := by
  interval_cases k <;> rfl

theorem toDigitsCore_acc (fuel : Nat) : ∀ (n : Nat) (acc : List Char),
    Nat.toDigitsCore 10 fuel n acc = Nat.toDigitsCore 10 fuel n [] ++ acc := by
  induction fuel with
  | zero => intro n acc; simp [Nat.toDigitsCore]
  | succ f ih =>
    intro n acc
    simp only [Nat.toDigitsCore]
    by_cases h : n / 10 = 0
    · simp [h]
    · simp only [h, if_false]
      rw [ih (n / 10) (Nat.digitChar (n % 10) :: acc), ih (n / 10) [Nat.digitChar (n % 10)]]
      simp

theorem toDigitsCore_ne_nil (fuel n : Nat) : Nat.toDigitsCore 10 (fuel + 1) n [] ≠ [] := by
  simp only [Nat.toDigitsCore]
  by_cases h : n / 10 = 0
  · simp [h]
  · simp only [h, if_false]
    rw [toDigitsCore_acc]
    simp

theorem decodeDigits_toDigitsCore (fuel : Nat) : ∀ n : Nat, n < fuel →
    decodeDigits (Nat.toDigitsCore 10 fuel n []) = n := by
  induction fuel with
  | zero => intro n hn; omega
  | succ f ih =>
    intro n hn
    simp only [Nat.toDigitsCore]
    have hd : digitVal (Nat.digitChar (n % 10)) = n % 10 :=
      digitVal_digitChar _ (Nat.mod_lt _ (by decide))
    by_cases h : n / 10 = 0
    · simp only [h, if_true, decodeDigits, List.foldl, hd]
      omega
    · simp only [h, if_false]
      rw [toDigitsCore_acc]
      have hlt : n / 10 < f := by omega
      have := ih (n / 10) hlt
      simp only [decodeDigits, List.foldl_append, List.foldl] at this ⊢
      rw [this, hd]
      omega

theorem decodeDigits_sprintfD (n : Nat) : decodeDigits (sprintfD n).toList = n := by
  simp only [sprintfD, Nat.repr, Nat.toDigits]
  exact decodeDigits_toDigitsCore (n + 1) n (Nat.lt_succ_self n)

theorem sprintfD_injective {m n : Nat} (h : sprintfD m = sprintfD n) : m = n := by
  rw [← decodeDigits_sprintfD m, h, decodeDigits_sprintfD n]

theorem sprintfD_ne_empty (n : Nat) : sprintfD n ≠ "" := by
  intro h
  have h2 : (sprintfD n).toList = [] := by rw [h]; rfl
  exact toDigitsCore_ne_nil n n h2

/-! ## The comparison functions are strict weak orders -/

theorem bytesLess_asymm : ∀ a b : List Nat, bytesLess a b = true → bytesLess b a = false
  | _, [] => by simp [bytesLess]
  | [], _ :: _ => by simp [bytesLess]
  | x :: xs, y :: ys => by
    simp only [bytesLess]
    split_ifs <;> first | omega | simp | exact bytesLess_asymm xs ys

theorem bytesLess_negtrans : ∀ a b c : List Nat,
    bytesLess a b = false → bytesLess b c = false → bytesLess a c = false
  | _, _, [] => by simp [bytesLess]
  | _, [], _ :: _ => by simp [bytesLess]
  | [], _ :: _, _ :: _ => by simp [bytesLess]
  | x :: xs, y :: ys, z :: zs => by
    simp only [bytesLess]
    split_ifs <;> first | omega | simp | exact bytesLess_negtrans xs ys zs

theorem strictWeak_stringLess {α : Type} (key : α → String) :
    StrictWeak (fun a b => stringLess (key a) (key b)) :=
  ⟨fun _ _ => bytesLess_asymm _ _, fun _ _ _ => bytesLess_negtrans _ _ _⟩

theorem strictWeak_ratLess {α : Type} (key : α → ℚ) :
    StrictWeak (fun a b => decide (key a < key b)) := by
  constructor
  · intro a b h
    simp only [decide_eq_true_eq, decide_eq_false_iff_not, not_lt] at h ⊢
    exact le_of_lt h
  · intro a b c h1 h2
    simp only [decide_eq_false_iff_not, not_lt] at h1 h2 ⊢
    exact le_trans h2 h1

/-! ## `sort.Slice` returns a sorted permutation -/

theorem swapDown_perm {α : Type} (less : α → α → Bool) (x : α) :
    ∀ l : List α, (swapDown less x l).Perm (x :: l)
  | [] => List.Perm.refl _
  | p :: ps => by
    simp only [swapDown]
    split_ifs
    · exact ((swapDown_perm less x ps).cons p).trans (List.Perm.swap x p ps)
    · exact List.Perm.refl _

theorem foldl_swapDown_perm {α : Type} (less : α → α → Bool) :
    ∀ (data done : List α),
      (data.foldl (fun done x => swapDown less x done) done).Perm (data ++ done)
  | [], done => List.Perm.refl _
  | x :: xs, done => by
    simp only [List.foldl_cons]
    refine (foldl_swapDown_perm less xs (swapDown less x done)).trans ?_
    refine ((swapDown_perm less x done).append_left xs).trans ?_
    simp

theorem sortSlice_perm {α : Type} (less : α → α → Bool) (l : List α) :
    (sortSlice less l).Perm l := by
  unfold sortSlice insertionSortLessFunc
  refine (List.reverse_perm _).trans ?_
  simpa using foldl_swapDown_perm less l []

theorem swapDown_pairwise {α : Type} {less : α → α → Bool} (hw : StrictWeak less) (x : α) :
    ∀ l : List α, l.Pairwise (fun a b => less a b = false) →
      (swapDown less x l).Pairwise (fun a b => less a b = false)
  | [], _ => by simp [swapDown]
  | p :: ps, h => by
    simp only [swapDown]
    rw [List.pairwise_cons] at h
    split_ifs with hx
    · rw [List.pairwise_cons]
      refine ⟨?_, swapDown_pairwise hw x ps h.2⟩
      intro y hy
      rcases List.mem_cons.1 ((swapDown_perm less x ps).mem_iff.1 hy) with rfl | hy
      · exact hw.1 _ _ hx
      · exact h.1 y hy
    · have hx' : less x p = false := by simpa using hx
      rw [List.pairwise_cons]
      refine ⟨?_, List.pairwise_cons.2 h⟩
      intro y hy
      rcases List.mem_cons.1 hy with rfl | hy
      · exact hx'
      · exact hw.2 _ _ _ hx' (h.1 y hy)

theorem foldl_swapDown_pairwise {α : Type} {less : α → α → Bool} (hw : StrictWeak less) :
    ∀ (data done : List α), done.Pairwise (fun a b => less a b = false) →
      (data.foldl (fun done x => swapDown less x done) done).Pairwise
        (fun a b => less a b = false)
  | [], _, h => h
  | x :: xs, done, h => by
    simp only [List.foldl_cons]
    exact foldl_swapDown_pairwise hw xs _ (swapDown_pairwise hw x done h)

/-- No element of the sorted slice is less than an element standing before it. -/
theorem sortSlice_sorted {α : Type} {less : α → α → Bool} (hw : StrictWeak less) (l : List α) :
    (sortSlice less l).Pairwise (fun a b => less b a = false) := by
  unfold sortSlice insertionSortLessFunc
  rw [List.pairwise_reverse]
  exact foldl_swapDown_pairwise hw l [] List.Pairwise.nil

/-! ## Request binding -/

theorem validateAlbum_iff (a : Album) :
    validateAlbum a = true ↔
      5 ≤ a.Name.length ∧ a.DateOfRelease ≠ "" ∧ 100 ≤ a.Price ∧ a.Price ≤ 1000 := by
  simp only [validateAlbum, Bool.and_eq_true, bne_iff_ne, ne_eq, decide_eq_true_eq]
  constructor
  · rintro ⟨⟨⟨_, h1⟩, h2⟩, ⟨_, h3⟩, h4⟩
    exact ⟨h1, h2, h3, h4⟩
  · rintro ⟨h1, h2, h3, h4⟩
    refine ⟨⟨⟨?_, h1⟩, h2⟩, ⟨?_, h3⟩, h4⟩
    · intro h
      rw [h] at h1
      exact absurd h1 (by decide)
    · intro h
      rw [h] at h3
      exact absurd h3 (by norm_num)

theorem validateMusician_iff (m : Musician) :
    validateMusician m = true ↔ 3 ≤ m.Name.length := by
  simp only [validateMusician, Bool.and_eq_true, bne_iff_ne, ne_eq, decide_eq_true_eq]
  constructor
  · rintro ⟨_, h⟩
    exact h
  · intro h1
    refine ⟨?_, h1⟩
    intro h
    rw [h] at h1
    exact absurd h1 (by decide)

/-! ## The update loops -/

theorem updateAlbum_eq_none (album : Album) :
    ∀ l : List Album, updateAlbum album l = none ↔ ∀ a ∈ l, a.ID ≠ album.ID
  | [] => by simp [updateAlbum]
  | a :: rest => by
    by_cases h : a.ID = album.ID
    · simp [updateAlbum, h]
    · simp [updateAlbum, h, updateAlbum_eq_none album rest]

theorem updateAlbum_eq_some (album : Album) :
    ∀ l l' : List Album, updateAlbum album l = some l' →
      ∃ before old after, l = before ++ old :: after ∧ (∀ a ∈ before, a.ID ≠ album.ID) ∧
        old.ID = album.ID ∧ l' = before ++ album :: after
  | [], l' => by simp [updateAlbum]
  | a :: rest, l' => by
    by_cases h : a.ID = album.ID
    · intro hl
      simp only [updateAlbum, h, if_true, Option.some.injEq] at hl
      exact ⟨[], a, rest, by simp, by simp, h, by simp [hl]⟩
    · intro hl
      simp only [updateAlbum, h, if_false, Option.map_eq_some'] at hl
      obtain ⟨r, hr, rfl⟩ := hl
      obtain ⟨before, old, after, h1, h2, h3, h4⟩ := updateAlbum_eq_some album rest r hr
      refine ⟨a :: before, old, after, by simp [h1], ?_, h3, by simp [h4]⟩
      intro x hx
      rcases List.mem_cons.1 hx with rfl | hx
      · exact h
      · exact h2 x hx

theorem updateMusician_eq_none (musician : Musician) :
    ∀ l : List Musician, updateMusician musician l = none ↔ ∀ m ∈ l, m.ID ≠ musician.ID
  | [] => by simp [updateMusician]
  | m :: rest => by
    by_cases h : m.ID = musician.ID
    · simp [updateMusician, h]
    · simp [updateMusician, h, updateMusician_eq_none musician rest]

theorem updateMusician_eq_some (musician : Musician) :
    ∀ l l' : List Musician, updateMusician musician l = some l' →
      ∃ before old after, l = before ++ old :: after ∧ (∀ m ∈ before, m.ID ≠ musician.ID) ∧
        old.ID = musician.ID ∧ l' = before ++ musician :: after
  | [], l' => by simp [updateMusician]
  | m :: rest, l' => by
    by_cases h : m.ID = musician.ID
    · intro hl
      simp only [updateMusician, h, if_true, Option.some.injEq] at hl
      exact ⟨[], m, rest, by simp, by simp, h, by simp [hl]⟩
    · intro hl
      simp only [updateMusician, h, if_false, Option.map_eq_some'] at hl
      obtain ⟨r, hr, rfl⟩ := hl
      obtain ⟨before, old, after, h1, h2, h3, h4⟩ := updateMusician_eq_some musician rest r hr
      refine ⟨m :: before, old, after, by simp [h1], ?_, h3, by simp [h4]⟩
      intro x hx
      rcases List.mem_cons.1 hx with rfl | hx
      · exact h
      · exact h2 x hx

/-- An accepted album upsert, spelled out on the two outcomes of the update loop. -/
theorem createOrUpdateAlbum_valid (st : Store) (p : Album) (hv : validateAlbum p = true) :
    createOrUpdateAlbum st (some p) =
      match updateAlbum { p with ID := sprintfD (st.albums.length + 1) } st.albums with
      | some l =>
        (⟨StatusOK, Body.message "Album updated successfully"⟩, { st with albums := l })
      | none =>
        (⟨StatusCreated, Body.message "Album created successfully"⟩,
          { st with albums := st.albums ++ [{ p with ID := sprintfD (st.albums.length + 1) }] }) := by
  simp only [createOrUpdateAlbum, shouldBindAlbum, hv, if_true]

theorem createOrUpdateAlbum_invalid (st : Store) (p : Album) (hv : validateAlbum p = false) :
    createOrUpdateAlbum st (some p) = (⟨StatusBadRequest, Body.bindError⟩, st) := by
  simp [createOrUpdateAlbum, shouldBindAlbum, hv]

/-- An accepted musician upsert, spelled out on the two outcomes of the update loop. -/
theorem createOrUpdateMusician_valid (st : Store) (p : Musician)
    (hv : validateMusician p = true) :
    createOrUpdateMusician st (some p) =
      match updateMusician { p with ID := sprintfD (st.musicians.length + 1) } st.musicians with
      | some l =>
        (⟨StatusOK, Body.message "Musician updated successfully"⟩, { st with musicians := l })
      | none =>
        (⟨StatusCreated, Body.message "Musician created successfully"⟩,
          { st with
            musicians := st.musicians ++ [{ p with ID := sprintfD (st.musicians.length + 1) }] }) := by
  simp only [createOrUpdateMusician, shouldBindMusician, hv, if_true]

theorem createOrUpdateMusician_invalid (st : Store) (p : Musician)
    (hv : validateMusician p = false) :
    createOrUpdateMusician st (some p) = (⟨StatusBadRequest, Body.bindError⟩, st) := by
  simp [createOrUpdateMusician, shouldBindMusician, hv]

theorem createOrUpdateAlbum_status_of_valid (st : Store) (p : Album)
    (hv : validateAlbum p = true) :
    (createOrUpdateAlbum st (some p)).1.status = 200 ∨
      (createOrUpdateAlbum st (some p)).1.status = 201 := by
  rw [createOrUpdateAlbum_valid st p hv]
  cases updateAlbum { p with ID := sprintfD (st.albums.length + 1) } st.albums with
  | none => right; rfl
  | some l => left; rfl

theorem createOrUpdateMusician_status_of_valid (st : Store) (p : Musician)
    (hv : validateMusician p = true) :
    (createOrUpdateMusician st (some p)).1.status = 200 ∨
      (createOrUpdateMusician st (some p)).1.status = 201 := by
  rw [createOrUpdateMusician_valid st p hv]
  cases updateMusician { p with ID := sprintfD (st.musicians.length + 1) } st.musicians with
  | none => right; rfl
  | some l => left; rfl

/-! ## Validation of upserts -/

/-- C1: an album upsert of a decodable payload answers 400 exactly when the name has
fewer than 5 characters, the release date is empty, or the price is below 100 or
above 1000; and an upsert that answers 400 leaves the whole store as it was. -/
theorem createOrUpdateAlbum_rejected_iff (st : Store) (p : Album) :
    ((createOrUpdateAlbum st (some p)).1.status = 400 ↔
        (p.Name.length < 5 ∨ p.DateOfRelease = "" ∨ p.Price < 100 ∨ 1000 < p.Price)) ∧
      ((createOrUpdateAlbum st (some p)).1.status = 400 →
        (createOrUpdateAlbum st (some p)).2 = st) := by
  cases hv : validateAlbum p with
  | true =>
    have h := (validateAlbum_iff p).1 hv
    have hs := createOrUpdateAlbum_status_of_valid st p hv
    have hne : (createOrUpdateAlbum st (some p)).1.status ≠ 400 := by
      rcases hs with hs | hs <;> rw [hs] <;> decide
    refine ⟨⟨fun h4 => absurd h4 hne, ?_⟩, fun h4 => absurd h4 hne⟩
    rintro (h1 | h1 | h1 | h1)
    · omega
    · exact absurd h1 h.2.1
    · exact absurd h.2.2.1 (not_le.2 h1)
    · exact absurd h.2.2.2 (not_le.2 h1)
  | false =>
    rw [createOrUpdateAlbum_invalid st p hv]
    refine ⟨⟨fun _ => ?_, fun _ => rfl⟩, fun _ => rfl⟩
    by_contra hcon
    simp only [not_or, not_lt] at hcon
    have : validateAlbum p = true := (validateAlbum_iff p).2 hcon
    rw [hv] at this
    exact Bool.noConfusion this

/-- The boundary prices 100 and 1000 are accepted and a price just outside is
rejected without touching the store. -/
theorem createOrUpdateAlbum_rejected_iff_witness :
    (createOrUpdateAlbum sampleStore (some { albumA with Price := 100 })).1.status = 201 ∧
      (createOrUpdateAlbum sampleStore (some { albumA with Price := 1000 })).1.status = 201 ∧
      (createOrUpdateAlbum sampleStore (some { albumA with Price := 1001 })).2 = sampleStore :=
  ⟨by decide, by decide,
    (createOrUpdateAlbum_rejected_iff sampleStore { albumA with Price := 1001 }).2 (by decide)⟩

/-- C2: a musician upsert of a decodable payload whose name has fewer than 3
characters answers 400 and leaves the whole store as it was; with a name of 3 or
more characters it answers 200 or 201. -/
theorem createOrUpdateMusician_name_check (st : Store) (p : Musician) :
    (p.Name.length < 3 →
        (createOrUpdateMusician st (some p)).1.status = 400 ∧
          (createOrUpdateMusician st (some p)).2 = st) ∧
      (3 ≤ p.Name.length →
        (createOrUpdateMusician st (some p)).1.status = 200 ∨
          (createOrUpdateMusician st (some p)).1.status = 201) := by
  constructor
  · intro h
    have hv : validateMusician p = false := by
      cases hv : validateMusician p with
      | false => rfl
      | true => have := (validateMusician_iff p).1 hv; omega
    rw [createOrUpdateMusician_invalid st p hv]
    exact ⟨rfl, rfl⟩
  · intro h
    exact createOrUpdateMusician_status_of_valid st p ((validateMusician_iff p).2 h)

/-- A two-letter name is rejected, a three-letter name is accepted. -/
theorem createOrUpdateMusician_name_check_witness :
    ((createOrUpdateMusician sampleStore (some ⟨"", "Al", "bass"⟩)).1.status = 400 ∧
        (createOrUpdateMusician sampleStore (some ⟨"", "Al", "bass"⟩)).2 = sampleStore) ∧
      ((createOrUpdateMusician sampleStore (some musician8)).1.status = 200 ∨
        (createOrUpdateMusician sampleStore (some musician8)).1.status = 201) :=
  ⟨(createOrUpdateMusician_name_check sampleStore ⟨"", "Al", "bass"⟩).1 (by decide),
    (createOrUpdateMusician_name_check sampleStore musician8).2 (by decide)⟩

/-! ## Identifier assignment -/

theorem freshIds_nil : FreshIds [] := by
  intro j _ h
  simp at h

theorem freshIds_append (ids : List String) (h : FreshIds ids) :
    FreshIds (ids ++ [sprintfD (ids.length + 1)]) := by
  intro j hj hmem
  simp only [List.length_append, List.length_singleton] at hj
  rcases List.mem_append.1 hmem with hm | hm
  · exact h j (by omega) hm
  · have := sprintfD_injective (List.mem_singleton.1 hm)
    omega

theorem freshIds_perm {ids ids' : List String} (hp : ids'.Perm ids) (h : FreshIds ids) :
    FreshIds ids' := by
  intro j hj hmem
  exact h j (by rw [← hp.length_eq]; exact hj) (hp.mem_iff.1 hmem)

theorem updateAlbum_of_fresh (st : Store) (p : Album)
    (hf : FreshIds (st.albums.map Album.ID)) :
    updateAlbum { p with ID := sprintfD (st.albums.length + 1) } st.albums = none := by
  rw [updateAlbum_eq_none]
  intro a ha heq
  refine hf (st.albums.length + 1) (by simp) ?_
  rw [← show a.ID = sprintfD (st.albums.length + 1) from heq]
  exact List.mem_map_of_mem _ ha

theorem updateMusician_of_fresh (st : Store) (p : Musician)
    (hf : FreshIds (st.musicians.map Musician.ID)) :
    updateMusician { p with ID := sprintfD (st.musicians.length + 1) } st.musicians = none := by
  rw [updateMusician_eq_none]
  intro a ha heq
  refine hf (st.musicians.length + 1) (by simp) ?_
  rw [← show a.ID = sprintfD (st.musicians.length + 1) from heq]
  exact List.mem_map_of_mem _ ha

theorem createOrUpdateAlbum_of_fresh (st : Store) (p : Album) (hv : validateAlbum p = true)
    (hf : FreshIds (st.albums.map Album.ID)) :
    createOrUpdateAlbum st (some p) =
      (⟨StatusCreated, Body.message "Album created successfully"⟩,
        { st with albums := st.albums ++ [{ p with ID := sprintfD (st.albums.length + 1) }] }) := by
  rw [createOrUpdateAlbum_valid st p hv, updateAlbum_of_fresh st p hf]

theorem createOrUpdateMusician_of_fresh (st : Store) (p : Musician)
    (hv : validateMusician p = true) (hf : FreshIds (st.musicians.map Musician.ID)) :
    createOrUpdateMusician st (some p) =
      (⟨StatusCreated, Body.message "Musician created successfully"⟩,
        { st with
          musicians := st.musicians ++ [{ p with ID := sprintfD (st.musicians.length + 1) }] }) := by
  rw [createOrUpdateMusician_valid st p hv, updateMusician_of_fresh st p hf]

theorem upsertAlbums_of_fresh : ∀ (ps : List Album) (st : Store),
    FreshIds (st.albums.map Album.ID) → (∀ p ∈ ps, validateAlbum p = true) →
      (upsertAlbums st ps).1 =
          ps.map (fun _ => (⟨StatusCreated, Body.message "Album created successfully"⟩ : Response)) ∧
        (upsertAlbums st ps).2 =
          { st with albums := st.albums ++ assignIDs st.albums.length ps }
  | [], st, _, _ => by simp [upsertAlbums, assignIDs]
  | p :: ps, st, hf, hv => by
    have hp : validateAlbum p = true := hv p (List.mem_cons_self _ _)
    have hstep := createOrUpdateAlbum_of_fresh st p hp hf
    have hf' : FreshIds ((createOrUpdateAlbum st (some p)).2.albums.map Album.ID) := by
      rw [hstep]
      simpa using freshIds_append _ hf
    have ih := upsertAlbums_of_fresh ps (createOrUpdateAlbum st (some p)).2 hf'
      (fun q hq => hv q (List.mem_cons_of_mem _ hq))
    simp only [upsertAlbums, List.map_cons]
    rw [ih.1, ih.2, hstep]
    simp [assignIDs]

theorem assignIDs_ids : ∀ (ps : List Album) (k : Nat),
    (assignIDs k ps).map Album.ID = (List.range' (k + 1) ps.length).map sprintfD
  | [], k => by simp [assignIDs]
  | p :: ps, k => by simp [assignIDs, assignIDs_ids ps (k + 1), List.range'_succ]

/-- C3: from an empty album collection, upserting any sequence of valid payloads
one after the other answers 201 every time, the k-th payload is stored with the
decimal rendering of k as its identifier, and the collection ends up holding the
identifiers "1", "2", ..., "n" in that order. -/
theorem upsertAlbums_from_empty (ms : List Musician) (ps : List Album)
    (hv : ∀ p ∈ ps, validateAlbum p = true) :
    (upsertAlbums ⟨[], ms⟩ ps).1.map Response.status = List.replicate ps.length 201 ∧
      (upsertAlbums ⟨[], ms⟩ ps).2.albums = assignIDs 0 ps ∧
      (upsertAlbums ⟨[], ms⟩ ps).2.albums.map Album.ID =
        (List.range' 1 ps.length).map sprintfD := by
  have h := upsertAlbums_of_fresh ps ⟨[], ms⟩ freshIds_nil hv
  have h2 : (upsertAlbums ⟨[], ms⟩ ps).2.albums = assignIDs 0 ps := by
    rw [h.2]
    simp
  refine ⟨?_, h2, ?_⟩
  · rw [h.1]
    simp [StatusCreated, List.map_const']
  · rw [h2]
    exact assignIDs_ids ps 0

/-- Three creates on an empty collection give the identifiers "1", "2", "3". -/
theorem upsertAlbums_from_empty_witness :
    (∀ p ∈ [albumC, albumA, albumB], validateAlbum p = true) ∧
      (upsertAlbums ⟨[], []⟩ [albumC, albumA, albumB]).1.map Response.status = [201, 201, 201] ∧
      (upsertAlbums ⟨[], []⟩ [albumC, albumA, albumB]).2.albums.map Album.ID = ["1", "2", "3"] :=
  ⟨by decide,
    (upsertAlbums_from_empty [] [albumC, albumA, albumB] (by decide)).1,
    (upsertAlbums_from_empty [] [albumC, albumA, albumB] (by decide)).2.2⟩

/-! ## Upsert, then list -/

theorem mem_albums_after_upsert (st : Store) (p : Album) (hv : validateAlbum p = true) :
    { p with ID := sprintfD (st.albums.length + 1) } ∈
      (createOrUpdateAlbum st (some p)).2.albums := by
  rw [createOrUpdateAlbum_valid st p hv]
  cases h : updateAlbum { p with ID := sprintfD (st.albums.length + 1) } st.albums with
  | none => simp
  | some l =>
    obtain ⟨before, old, after, _, _, _, h4⟩ := updateAlbum_eq_some _ _ _ h
    simp [h4]

/-- C4: after an upsert of a valid payload, the list-albums response is a 200 whose
array holds the payload with all its fields kept except the identifier, which is
the decimal rendering of the former collection size plus one and is not empty;
this is so on the create branch and on the update branch alike. -/
theorem upserted_album_is_listed (st : Store) (p : Album) (hv : validateAlbum p = true) :
    sprintfD (st.albums.length + 1) ≠ "" ∧
      ∃ l, (getAlbums (createOrUpdateAlbum st (some p)).2).1 = ⟨200, Body.albums l⟩ ∧
        { p with ID := sprintfD (st.albums.length + 1) } ∈ l := by
  refine ⟨sprintfD_ne_empty _, _, rfl, ?_⟩
  exact (sortSlice_perm _ _).mem_iff.2 (mem_albums_after_upsert st p hv)

/-- The create branch (three stored albums) and the update branch (one stored album
whose identifier is "2"). -/
theorem upserted_album_is_listed_witness :
    (validateAlbum albumC = true ∧
        ∃ l, (getAlbums (createOrUpdateAlbum sampleStore (some albumC)).2).1 =
            ⟨200, Body.albums l⟩ ∧ { albumC with ID := sprintfD 4 } ∈ l) ∧
      (createOrUpdateAlbum ⟨[albumB], []⟩ (some albumC)).1.status = 200 ∧
      ∃ l, (getAlbums (createOrUpdateAlbum ⟨[albumB], []⟩ (some albumC)).2).1 =
          ⟨200, Body.albums l⟩ ∧ { albumC with ID := sprintfD 2 } ∈ l :=
  ⟨⟨by decide, (upserted_album_is_listed sampleStore albumC (by decide)).2⟩, by decide,
    (upserted_album_is_listed ⟨[albumB], []⟩ albumC (by decide)).2⟩

/-! ## The two branches of the album upsert -/

/-- C8: an upsert of a valid payload overwrites the identifier with the decimal
rendering of the collection size plus one; if a stored album has that identifier
the first such entry is replaced in place (everything before and after it is kept)
and the answer is 200, otherwise the album is appended and the answer is 201; the
identifier the payload carried has no influence on the outcome. -/
theorem createOrUpdateAlbum_branches (st : Store) (p : Album) (hv : validateAlbum p = true) :
    ((∃ a ∈ st.albums, a.ID = sprintfD (st.albums.length + 1)) →
        ∃ before old after, st.albums = before ++ old :: after ∧
          (∀ a ∈ before, a.ID ≠ sprintfD (st.albums.length + 1)) ∧
          old.ID = sprintfD (st.albums.length + 1) ∧
          createOrUpdateAlbum st (some p) =
            (⟨200, Body.message "Album updated successfully"⟩,
              ⟨before ++ { p with ID := sprintfD (st.albums.length + 1) } :: after,
                st.musicians⟩)) ∧
      ((∀ a ∈ st.albums, a.ID ≠ sprintfD (st.albums.length + 1)) →
        createOrUpdateAlbum st (some p) =
          (⟨201, Body.message "Album created successfully"⟩,
            ⟨st.albums ++ [{ p with ID := sprintfD (st.albums.length + 1) }], st.musicians⟩)) ∧
      (∀ anyID : String,
        createOrUpdateAlbum st (some { p with ID := anyID }) =
          createOrUpdateAlbum st (some p)) := by
  refine ⟨?_, ?_, ?_⟩
  · rintro ⟨a, ha, hid⟩
    rw [createOrUpdateAlbum_valid st p hv]
    cases h : updateAlbum { p with ID := sprintfD (st.albums.length + 1) } st.albums with
    | none => exact absurd hid ((updateAlbum_eq_none _ _).1 h a ha)
    | some l =>
      obtain ⟨before, old, after, h1, h2, h3, h4⟩ := updateAlbum_eq_some _ _ _ h
      exact ⟨before, old, after, h1, h2, h3, by rw [h4]; rfl⟩
  · intro hno
    rw [createOrUpdateAlbum_valid st p hv, (updateAlbum_eq_none _ _).2 hno]
    rfl
  · intro anyID
    have hv' : validateAlbum { p with ID := anyID } = true := hv
    rw [createOrUpdateAlbum_valid st p hv, createOrUpdateAlbum_valid st _ hv']

/-- An update in place on a store seeded with the identifiers "3", "3", and a create
on the sample store. -/
theorem createOrUpdateAlbum_branches_witness :
    validateAlbum albumA = true ∧
      (∃ before old after, [albumC, albumC] = before ++ old :: after ∧
        (∀ a ∈ before, a.ID ≠ sprintfD 3) ∧ old.ID = sprintfD 3 ∧
        createOrUpdateAlbum ⟨[albumC, albumC], []⟩ (some albumA) =
          (⟨200, Body.message "Album updated successfully"⟩,
            ⟨before ++ { albumA with ID := sprintfD 3 } :: after, []⟩)) ∧
      createOrUpdateAlbum sampleStore (some albumA) =
        (⟨201, Body.message "Album created successfully"⟩,
          ⟨sampleStore.albums ++ [{ albumA with ID := sprintfD 4 }], sampleStore.musicians⟩) :=
  ⟨by decide,
    (createOrUpdateAlbum_branches ⟨[albumC, albumC], []⟩ albumA (by decide)).1
      ⟨albumC, by decide, by decide⟩,
    (createOrUpdateAlbum_branches sampleStore albumA (by decide)).2.1 (by decide)⟩

/-! ## Query handlers -/

theorem hasMusician_eq (musicianID : String) :
    ∀ l : List String, hasMusician musicianID l = decide (musicianID ∈ l)
  | [] => by simp [hasMusician]
  | x :: rest => by
    by_cases h : x = musicianID
    · simp [hasMusician, h]
    · have h' : ¬ musicianID = x := fun e => h e.symm
      simp [hasMusician, h, h', hasMusician_eq musicianID rest]

theorem elems_goAppend {α : Type} (s : Option (List α)) (x : α) :
    elems (goAppend s x) = elems s ++ [x] := rfl

theorem goAppend_ne_empty {α : Type} (s : Option (List α)) (x : α) :
    goAppend s x ≠ some [] := by
  simp [goAppend]

/-- A slice variable that is not an allocated empty slice is nil exactly when it has
no elements. -/
theorem eq_none_iff_elems {α : Type} (s : Option (List α)) (h : s ≠ some []) :
    s = none ↔ elems s = [] := by
  cases s with
  | none => simp [elems]
  | some l =>
    simp only [elems, reduceCtorEq, false_iff]
    intro e
    exact h (by rw [e])

theorem elems_sortSliceVar {α : Type} (less : α → α → Bool) (s : Option (List α)) :
    elems (sortSliceVar less s) = sortSlice less (elems s) := by
  cases s <;> rfl

theorem sortSliceVar_eq_none {α : Type} (less : α → α → Bool) (s : Option (List α)) :
    sortSliceVar less s = none ↔ s = none := by
  cases s <;> simp [sortSliceVar]

theorem eq_some_of_elems {α : Type} (s : Option (List α)) (l : List α) (h : elems s = l)
    (hl : l ≠ []) : s = some l := by
  cases s with
  | none => exact absurd h.symm hl
  | some l' => exact congrArg some h

theorem collectAlbums_elems (musicianID : String) :
    ∀ (l : List Album) (acc : Option (List Album)),
      elems (collectAlbums musicianID l acc) =
        elems acc ++ l.filter (fun a => decide (musicianID ∈ a.Musicians))
  | [], acc => by simp [collectAlbums]
  | a :: rest, acc => by
    by_cases h : musicianID ∈ a.Musicians
    · simp [collectAlbums, hasMusician_eq, h, collectAlbums_elems musicianID rest,
        elems_goAppend]
    · simp [collectAlbums, hasMusician_eq, h, collectAlbums_elems musicianID rest]

theorem collectAlbums_ne_empty (musicianID : String) :
    ∀ (l : List Album) (acc : Option (List Album)), acc ≠ some [] →
      collectAlbums musicianID l acc ≠ some []
  | [], _, h => h
  | a :: rest, acc, h => by
    simp only [collectAlbums]
    split_ifs
    · exact collectAlbums_ne_empty musicianID rest _ (goAppend_ne_empty _ _)
    · exact collectAlbums_ne_empty musicianID rest acc h

theorem firstMusician_eq (musicianID : String) :
    ∀ l : List Musician,
      firstMusician musicianID l = l.find? (fun m => decide (m.ID = musicianID))
  | [] => rfl
  | m :: rest => by
    by_cases h : m.ID = musicianID
    · simp [firstMusician, h]
    · simp [firstMusician, h, firstMusician_eq musicianID rest]

theorem collectMusicians_elems (musicians : List Musician) :
    ∀ (ids : List String) (acc : Option (List Musician)),
      elems (collectMusicians musicians ids acc) =
        elems acc ++
          ids.filterMap (fun mid => musicians.find? (fun m => decide (m.ID = mid)))
  | [], acc => by simp [collectMusicians]
  | mid :: rest, acc => by
    simp only [collectMusicians, List.filterMap_cons, firstMusician_eq]
    cases musicians.find? (fun m => decide (m.ID = mid)) with
    | none => exact collectMusicians_elems musicians rest acc
    | some m =>
      simp only
      rw [collectMusicians_elems musicians rest, elems_goAppend]
      simp

theorem collectMusicians_ne_empty (musicians : List Musician) :
    ∀ (ids : List String) (acc : Option (List Musician)), acc ≠ some [] →
      collectMusicians musicians ids acc ≠ some []
  | [], _, h => h
  | mid :: rest, acc, h => by
    simp only [collectMusicians]
    cases firstMusician mid musicians with
    | none => exact collectMusicians_ne_empty musicians rest acc h
    | some m => exact collectMusicians_ne_empty musicians rest _ (goAppend_ne_empty _ _)

theorem musiciansOfAlbum_elems (st : Store) (albumID : String) :
    ∀ l : List Album,
      elems (musiciansOfAlbum st.musicians albumID l) =
        musiciansForAlbumSpec ⟨l, st.musicians⟩ albumID
  | [] => rfl
  | a :: rest => by
    by_cases h : a.ID = albumID
    · simp only [musiciansOfAlbum, h, if_true, collectMusicians_elems]
      simp [musiciansForAlbumSpec, h, elems]
    · have ih := musiciansOfAlbum_elems st albumID rest
      simp only [musiciansForAlbumSpec] at ih
      simp [musiciansOfAlbum, musiciansForAlbumSpec, h, ih]

theorem musiciansOfAlbum_ne_empty (musicians : List Musician) (albumID : String) :
    ∀ l : List Album, musiciansOfAlbum musicians albumID l ≠ some []
  | [] => by simp [musiciansOfAlbum]
  | a :: rest => by
    simp only [musiciansOfAlbum]
    split_ifs
    · exact collectMusicians_ne_empty musicians a.Musicians none (by simp)
    · exact musiciansOfAlbum_ne_empty musicians albumID rest

theorem musiciansOfAlbum_unknown (musicians : List Musician) (albumID : String) :
    ∀ l : List Album, (∀ x ∈ l, x.ID ≠ albumID) → musiciansOfAlbum musicians albumID l = none
  | [], _ => rfl
  | a :: rest, h => by
    have ha : a.ID ≠ albumID := h a (List.mem_cons_self _ _)
    simp only [musiciansOfAlbum, ha, if_false]
    exact musiciansOfAlbum_unknown musicians albumID rest
      (fun x hx => h x (List.mem_cons_of_mem _ hx))

theorem sorted_pair_unique (l : List Album) (A B : Album) (hlt : B.Price < A.Price)
    (hp : l.Perm [A, B]) (hs : l.Pairwise (fun a b => a.Price ≤ b.Price)) : l = [B, A] := by
  have hlen := hp.length_eq
  match l, hlen with
  | [x, y], _ =>
    have hx : x = A ∨ x = B := by simpa using hp.mem_iff.1 (List.mem_cons_self _ _)
    have hy : y = A ∨ y = B := by
      simpa using hp.mem_iff.1 (List.mem_cons_of_mem _ (List.mem_cons_self _ _))
    have hA : A = x ∨ A = y := by simpa using hp.mem_iff.2 (List.mem_cons_self _ _)
    have hB : B = x ∨ B = y := by
      simpa using hp.mem_iff.2 (List.mem_cons_of_mem _ (List.mem_cons_self _ _))
    have hxy : x.Price ≤ y.Price := by simpa using hs
    have hne : A ≠ B := fun e => by rw [e] at hlt; exact lt_irrefl _ hlt
    rcases hx with rfl | rfl <;> rcases hy with rfl | rfl
    · rcases hB with e | e <;> exact absurd e.symm hne
    · exact absurd hxy (not_le.2 hlt)
    · rfl
    · rcases hA with e | e <;> exact absurd e hne

/-- C5: list-albums answers 200 with a permutation of the stored albums in which no
album has a release date that is byte-wise less than the release date of an album
before it; the store afterwards holds exactly that sequence as its albums and the
same musicians as before. -/
theorem getAlbums_sorted_permutation (st : Store) :
    ∃ l, (getAlbums st).1 = ⟨200, Body.albums l⟩ ∧ l.Perm st.albums ∧
      l.Pairwise (fun a b => stringLess b.DateOfRelease a.DateOfRelease = false) ∧
      (getAlbums st).2 = ⟨l, st.musicians⟩ :=
  ⟨_, rfl, sortSlice_perm _ _, sortSlice_sorted (strictWeak_stringLess Album.DateOfRelease) _, rfl⟩

/-- C6: albums-by-musician answers 200 with a slice whose elements are a permutation
of the stored albums whose musician list contains the identifier (one occurrence
per stored album), ordered by non-decreasing price, and leaves the store as it
was; the slice is nil, and written as `null`, exactly when no stored album
references the identifier; when the identifier is referenced by exactly A
(price 200) and B (price 150) the answer is the array [B, A]. -/
theorem getAlbumsByMusician_sorted_permutation (st : Store) (musicianID : String) :
    ∃ s, (getAlbumsByMusician st musicianID).1 = ⟨200, jsonAlbums s⟩ ∧
      (elems s).Perm (albumsByMusicianSpec st musicianID) ∧
      (elems s).Pairwise (fun a b => a.Price ≤ b.Price) ∧
      (getAlbumsByMusician st musicianID).2 = st ∧
      (s = none ↔ albumsByMusicianSpec st musicianID = []) ∧
      (∀ A B : Album, A.Price = 200 → B.Price = 150 →
        (albumsByMusicianSpec st musicianID).Perm [A, B] →
          (getAlbumsByMusician st musicianID).1 = ⟨200, Body.albums [B, A]⟩) := by
  have hel : elems (collectAlbums musicianID st.albums none) =
      albumsByMusicianSpec st musicianID := by
    rw [collectAlbums_elems]
    simp [elems, albumsByMusicianSpec]
  have hperm : (elems (sortSliceVar (fun a b : Album => decide (a.Price < b.Price))
      (collectAlbums musicianID st.albums none))).Perm (albumsByMusicianSpec st musicianID) := by
    rw [elems_sortSliceVar, hel]
    exact sortSlice_perm _ _
  have hsorted : (elems (sortSliceVar (fun a b : Album => decide (a.Price < b.Price))
      (collectAlbums musicianID st.albums none))).Pairwise (fun a b => a.Price ≤ b.Price) := by
    rw [elems_sortSliceVar]
    refine (sortSlice_sorted (strictWeak_ratLess Album.Price) _).imp ?_
    intro a b h
    simpa using h
  have hnil : sortSliceVar (fun a b : Album => decide (a.Price < b.Price))
      (collectAlbums musicianID st.albums none) = none ↔
        albumsByMusicianSpec st musicianID = [] := by
    rw [sortSliceVar_eq_none,
      eq_none_iff_elems _ (collectAlbums_ne_empty musicianID st.albums none (by simp)), hel]
  refine ⟨_, rfl, hperm, hsorted, rfl, hnil, ?_⟩
  intro A B hA hB hAB
  have hpair := sorted_pair_unique _ A B (by rw [hA, hB]; norm_num) (hperm.trans hAB) hsorted
  have hsome := eq_some_of_elems _ _ hpair (by simp)
  show (⟨StatusOK, jsonAlbums (sortSliceVar (fun a b : Album => decide (a.Price < b.Price))
      (collectAlbums musicianID st.albums none))⟩ : Response) = ⟨200, Body.albums [B, A]⟩
  rw [hsome]
  rfl

/-- On the sample store musician "7" is referenced by album A (price 200) and, twice,
by album B (price 150): the answer is the array [B, A]. -/
theorem getAlbumsByMusician_sorted_permutation_witness :
    (albumsByMusicianSpec sampleStore "7").Perm [albumA, albumB] ∧
      (getAlbumsByMusician sampleStore "7").1 = ⟨200, Body.albums [albumB, albumA]⟩ := by
  refine ⟨by decide, ?_⟩
  obtain ⟨s, _, _, _, _, _, h⟩ := getAlbumsByMusician_sorted_permutation sampleStore "7"
  exact h albumA albumB (by decide) (by decide) (by decide)

/-- C7, as stated, fails: no album of the sample store has the identifier "9", and
the answer to musicians-for-album is 200 with the document `null`, which is not
the empty array. -/
theorem getMusiciansForAlbum_unknown_is_null :
    (∀ x ∈ sampleStore.albums, x.ID ≠ "9") ∧
      (getMusiciansForAlbum sampleStore "9").1 = ⟨200, Body.null⟩ ∧
      (getMusiciansForAlbum sampleStore "9").1 ≠ ⟨200, Body.musicians []⟩ := by
  decide

/-- C7, amended: musicians-for-album answers 200 with a slice in which no musician
has a name that is byte-wise less than the name of a musician before it, and whose
elements are a permutation of: the first stored album with the identifier and,
for each entry of its musician list in turn (repeats included), the first stored
musician with that identifier, entries without one being skipped.  The slice is
nil, and written as the document `null` instead of an empty array, exactly when
that sequence is empty, in particular when no stored album has the identifier;
otherwise it is written as an array.  The store is left as it was. -/
theorem getMusiciansForAlbum_sorted_permutation (st : Store) (albumID : String) :
    ∃ s, (getMusiciansForAlbum st albumID).1 = ⟨200, jsonMusicians s⟩ ∧
      (elems s).Pairwise (fun a b => stringLess b.Name a.Name = false) ∧
      (elems s).Perm (musiciansForAlbumSpec st albumID) ∧
      (s = none ↔ musiciansForAlbumSpec st albumID = []) ∧
      ((∀ x ∈ st.albums, x.ID ≠ albumID) →
        (getMusiciansForAlbum st albumID).1 = ⟨200, Body.null⟩) ∧
      (getMusiciansForAlbum st albumID).2 = st := by
  have hel : elems (musiciansOfAlbum st.musicians albumID st.albums) =
      musiciansForAlbumSpec st albumID := musiciansOfAlbum_elems st albumID st.albums
  refine ⟨_, rfl, ?_, ?_, ?_, ?_, rfl⟩
  · rw [elems_sortSliceVar]
    exact sortSlice_sorted (strictWeak_stringLess Musician.Name) _
  · rw [elems_sortSliceVar, hel]
    exact sortSlice_perm _ _
  · rw [sortSliceVar_eq_none,
      eq_none_iff_elems _ (musiciansOfAlbum_ne_empty st.musicians albumID st.albums), hel]
  · intro h
    show (⟨StatusOK, jsonMusicians (sortSliceVar (fun a b : Musician => stringLess a.Name b.Name)
      (musiciansOfAlbum st.musicians albumID st.albums))⟩ : Response) = ⟨200, Body.null⟩
    rw [musiciansOfAlbum_unknown st.musicians albumID st.albums h]
    rfl

/-- On the sample store album "2" lists musician "7" twice and album "3" lists
musician "8"; no album has the identifier "9". -/
theorem getMusiciansForAlbum_sorted_permutation_witness :
    (getMusiciansForAlbum sampleStore "2").1 = ⟨200, Body.musicians [musician7, musician7]⟩ ∧
      (∀ x ∈ sampleStore.albums, x.ID ≠ "9") ∧
      (getMusiciansForAlbum ⟨sampleStore.albums, []⟩ "2").1 = ⟨200, Body.null⟩ ∧
      ∃ s, (getMusiciansForAlbum sampleStore "9").1 = ⟨200, jsonMusicians s⟩ ∧ s = none := by
  refine ⟨by decide, by decide, by decide, ?_⟩
  obtain ⟨s, h1, _, _, h4, _, _⟩ := getMusiciansForAlbum_sorted_permutation sampleStore "9"
  exact ⟨s, h1, h4.2 (by decide)⟩

/-! ## Identifiers stay distinct -/

theorem createOrUpdateAlbum_musicians (st : Store) (body : Option Album) :
    (createOrUpdateAlbum st body).2.musicians = st.musicians := by
  unfold createOrUpdateAlbum
  cases shouldBindAlbum body with
  | none => rfl
  | some bound =>
    simp only
    cases updateAlbum { bound with ID := sprintfD (st.albums.length + 1) } st.albums <;> rfl

theorem createOrUpdateMusician_albums (st : Store) (body : Option Musician) :
    (createOrUpdateMusician st body).2.albums = st.albums := by
  unfold createOrUpdateMusician
  cases shouldBindMusician body with
  | none => rfl
  | some bound =>
    simp only
    cases updateMusician { bound with ID := sprintfD (st.musicians.length + 1) } st.musicians <;>
      rfl

/-- The album identifiers after an album upsert: the same sequence (rejected, or
updated in place), or the same sequence with one new identifier at its end. -/
theorem createOrUpdateAlbum_ids (st : Store) (body : Option Album) :
    (createOrUpdateAlbum st body).2.albums.map Album.ID = st.albums.map Album.ID ∨
      (sprintfD (st.albums.length + 1) ∉ st.albums.map Album.ID ∧
        (createOrUpdateAlbum st body).2.albums.map Album.ID =
          st.albums.map Album.ID ++ [sprintfD (st.albums.length + 1)]) := by
  unfold createOrUpdateAlbum
  cases shouldBindAlbum body with
  | none => left; rfl
  | some bound =>
    simp only
    cases h : updateAlbum { bound with ID := sprintfD (st.albums.length + 1) } st.albums with
    | some l =>
      left
      obtain ⟨before, old, after, h1, _, h3, h4⟩ := updateAlbum_eq_some _ _ _ h
      simp only [h1, h4, List.map_append, List.map_cons, h3]
    | none =>
      right
      refine ⟨?_, by simp⟩
      intro hmem
      obtain ⟨a, ha, hid⟩ := List.mem_map.1 hmem
      exact (updateAlbum_eq_none _ _).1 h a ha hid

/-- The musician identifiers after a musician upsert. -/
theorem createOrUpdateMusician_ids (st : Store) (body : Option Musician) :
    (createOrUpdateMusician st body).2.musicians.map Musician.ID = st.musicians.map Musician.ID ∨
      (sprintfD (st.musicians.length + 1) ∉ st.musicians.map Musician.ID ∧
        (createOrUpdateMusician st body).2.musicians.map Musician.ID =
          st.musicians.map Musician.ID ++ [sprintfD (st.musicians.length + 1)]) := by
  unfold createOrUpdateMusician
  cases shouldBindMusician body with
  | none => left; rfl
  | some bound =>
    simp only
    cases h : updateMusician { bound with ID := sprintfD (st.musicians.length + 1) }
        st.musicians with
    | some l =>
      left
      obtain ⟨before, old, after, h1, _, h3, h4⟩ := updateMusician_eq_some _ _ _ h
      simp only [h1, h4, List.map_append, List.map_cons, h3]
    | none =>
      right
      refine ⟨?_, by simp⟩
      intro hmem
      obtain ⟨a, ha, hid⟩ := List.mem_map.1 hmem
      exact (updateMusician_eq_none _ _).1 h a ha hid

theorem nodup_after_album_upsert (st : Store) (body : Option Album)
    (h : (st.albums.map Album.ID).Nodup) :
    ((createOrUpdateAlbum st body).2.albums.map Album.ID).Nodup := by
  rcases createOrUpdateAlbum_ids st body with e | ⟨hn, e⟩
  · rw [e]; exact h
  · rw [e]
    exact List.nodup_append.2 ⟨h, List.nodup_singleton _, by simpa using hn⟩

theorem nodup_after_musician_upsert (st : Store) (body : Option Musician)
    (h : (st.musicians.map Musician.ID).Nodup) :
    ((createOrUpdateMusician st body).2.musicians.map Musician.ID).Nodup := by
  rcases createOrUpdateMusician_ids st body with e | ⟨hn, e⟩
  · rw [e]; exact h
  · rw [e]
    exact List.nodup_append.2 ⟨h, List.nodup_singleton _, by simpa using hn⟩

theorem nodup_after_getAlbums (st : Store) (h : (st.albums.map Album.ID).Nodup) :
    ((getAlbums st).2.albums.map Album.ID).Nodup :=
  (((sortSlice_perm _ st.albums).map Album.ID).nodup_iff).2 h

theorem nodup_after_handle (st : Store) (r : Request)
    (h : (st.albums.map Album.ID).Nodup ∧ (st.musicians.map Musician.ID).Nodup) :
    ((handle st r).2.albums.map Album.ID).Nodup ∧
      ((handle st r).2.musicians.map Musician.ID).Nodup := by
  cases r with
  | upsertAlbum body =>
    exact ⟨nodup_after_album_upsert st body h.1, by
      simp only [handle]; rw [createOrUpdateAlbum_musicians]; exact h.2⟩
  | upsertMusician body =>
    exact ⟨by simp only [handle]; rw [createOrUpdateMusician_albums]; exact h.1,
      nodup_after_musician_upsert st body h.2⟩
  | listAlbums => exact ⟨nodup_after_getAlbums st h.1, h.2⟩
  | listMusicians file =>
    simp only [handle, getMusicians]
    cases file <;> exact h
  | albumsByMusician m => exact h
  | musiciansForAlbum a => exact h

theorem nodup_after_run : ∀ (rs : List Request) (st : Store),
    (st.albums.map Album.ID).Nodup ∧ (st.musicians.map Musician.ID).Nodup →
      ((run st rs).albums.map Album.ID).Nodup ∧ ((run st rs).musicians.map Musician.ID).Nodup
  | [], _, h => h
  | r :: rs, st, h => nodup_after_run rs (handle st r).2 (nodup_after_handle st r h)

/-- C9: pairwise distinct album identifiers stay pairwise distinct across any album
upsert (whatever the body, accepted or rejected, created or updated) and across
list-albums; pairwise distinct musician identifiers stay so across any musician
upsert; hence a store whose identifiers are distinct keeps them distinct through
every sequence of requests. -/
theorem identifiers_stay_distinct (st : Store) :
    ((st.albums.map Album.ID).Nodup →
        (∀ body, ((createOrUpdateAlbum st body).2.albums.map Album.ID).Nodup) ∧
          ((getAlbums st).2.albums.map Album.ID).Nodup) ∧
      ((st.musicians.map Musician.ID).Nodup →
        ∀ body, ((createOrUpdateMusician st body).2.musicians.map Musician.ID).Nodup) ∧
      ((st.albums.map Album.ID).Nodup ∧ (st.musicians.map Musician.ID).Nodup →
        ∀ rs, ((run st rs).albums.map Album.ID).Nodup ∧
          ((run st rs).musicians.map Musician.ID).Nodup) :=
  ⟨fun h => ⟨fun body => nodup_after_album_upsert st body h, nodup_after_getAlbums st h⟩,
    fun h body => nodup_after_musician_upsert st body h,
    fun h rs => nodup_after_run rs st h⟩

/-- The sample store has distinct identifiers; they stay distinct after a create, a
rejected upsert, a listing and a musician create. -/
theorem identifiers_stay_distinct_witness :
    ((sampleStore.albums.map Album.ID).Nodup ∧ (sampleStore.musicians.map Musician.ID).Nodup) ∧
      ((createOrUpdateAlbum sampleStore (some albumA)).2.albums.map Album.ID).Nodup ∧
      ((getAlbums sampleStore).2.albums.map Album.ID).Nodup ∧
      ((createOrUpdateMusician sampleStore (some musician7)).2.musicians.map Musician.ID).Nodup ∧
      ((run sampleStore [Request.upsertAlbum (some albumA), Request.upsertAlbum none,
        Request.listAlbums, Request.upsertMusician (some musician8)]).albums.map
          Album.ID).Nodup :=
  ⟨by decide,
    ((identifiers_stay_distinct sampleStore).1 (by decide)).1 (some albumA),
    ((identifiers_stay_distinct sampleStore).1 (by decide)).2,
    (identifiers_stay_distinct sampleStore).2.1 (by decide) (some musician7),
    ((identifiers_stay_distinct sampleStore).2.2 (by decide) _).1⟩

/-! ## Reachability of the update branch -/

theorem fresh_after_album_upsert (st : Store) (body : Option Album)
    (hf : FreshIds (st.albums.map Album.ID)) :
    FreshIds ((createOrUpdateAlbum st body).2.albums.map Album.ID) := by
  cases body with
  | none => exact hf
  | some p =>
    cases hv : validateAlbum p with
    | false => rw [createOrUpdateAlbum_invalid st p hv]; exact hf
    | true =>
      rw [createOrUpdateAlbum_of_fresh st p hv hf]
      simpa using freshIds_append _ hf

theorem fresh_after_musician_upsert (st : Store) (body : Option Musician)
    (hf : FreshIds (st.musicians.map Musician.ID)) :
    FreshIds ((createOrUpdateMusician st body).2.musicians.map Musician.ID) := by
  cases body with
  | none => exact hf
  | some p =>
    cases hv : validateMusician p with
    | false => rw [createOrUpdateMusician_invalid st p hv]; exact hf
    | true =>
      rw [createOrUpdateMusician_of_fresh st p hv hf]
      simpa using freshIds_append _ hf

theorem fresh_after_handle (st : Store) (r : Request)
    (h : FreshIds (st.albums.map Album.ID) ∧ FreshIds (st.musicians.map Musician.ID)) :
    FreshIds ((handle st r).2.albums.map Album.ID) ∧
      FreshIds ((handle st r).2.musicians.map Musician.ID) := by
  cases r with
  | upsertAlbum body =>
    exact ⟨fresh_after_album_upsert st body h.1, by
      simp only [handle]; rw [createOrUpdateAlbum_musicians]; exact h.2⟩
  | upsertMusician body =>
    exact ⟨by simp only [handle]; rw [createOrUpdateMusician_albums]; exact h.1,
      fresh_after_musician_upsert st body h.2⟩
  | listAlbums =>
    exact ⟨freshIds_perm ((sortSlice_perm _ st.albums).map Album.ID) h.1, h.2⟩
  | listMusicians file =>
    simp only [handle, getMusicians]
    cases file <;> exact h
  | albumsByMusician m => exact h
  | musiciansForAlbum a => exact h

theorem fresh_after_run : ∀ (rs : List Request) (st : Store),
    FreshIds (st.albums.map Album.ID) ∧ FreshIds (st.musicians.map Musician.ID) →
      FreshIds ((run st rs).albums.map Album.ID) ∧
        FreshIds ((run st rs).musicians.map Musician.ID)
  | [], _, h => h
  | r :: rs, st, h => fresh_after_run rs (handle st r).2 (fresh_after_handle st r h)

/-- C10, as stated, fails: with a startup album collection seeded with a single
album whose identifier is "2", the first accepted album upsert finds that album,
answers 200 "updated" and leaves the collection at one entry; a musician
collection seeded the same way behaves alike. -/
theorem update_branch_reached :
    validateAlbum albumA = true ∧
      createOrUpdateAlbum (run ⟨[albumB], []⟩ []) (some albumA) =
        (⟨200, Body.message "Album updated successfully"⟩,
          ⟨[{ albumA with ID := "2" }], []⟩) ∧
      validateMusician musician7 = true ∧
      createOrUpdateMusician (run ⟨[], [⟨"2", "Amy", "bass"⟩]⟩ []) (some musician7) =
        (⟨200, Body.message "Musician updated successfully"⟩,
          ⟨[], [{ musician7 with ID := "2" }]⟩) := by
  decide

/-- C10, amended: when no record of the startup collections has as identifier the
decimal rendering of a number above the size of its collection, then in every
store reached through any sequence of requests an accepted album upsert answers
201 "created" and grows the album collection by one, and an accepted musician
upsert answers 201 "created" and grows the musician collection by one. -/
theorem upsert_always_creates (st0 : Store) (rs : List Request)
    (hA : FreshIds (st0.albums.map Album.ID))
    (hM : FreshIds (st0.musicians.map Musician.ID)) :
    (∀ p, validateAlbum p = true →
        (createOrUpdateAlbum (run st0 rs) (some p)).1 =
            ⟨201, Body.message "Album created successfully"⟩ ∧
          (createOrUpdateAlbum (run st0 rs) (some p)).2.albums.length =
            (run st0 rs).albums.length + 1) ∧
      (∀ p, validateMusician p = true →
        (createOrUpdateMusician (run st0 rs) (some p)).1 =
            ⟨201, Body.message "Musician created successfully"⟩ ∧
          (createOrUpdateMusician (run st0 rs) (some p)).2.musicians.length =
            (run st0 rs).musicians.length + 1) := by
  have h := fresh_after_run rs st0 ⟨hA, hM⟩
  constructor
  · intro p hv
    rw [createOrUpdateAlbum_of_fresh _ p hv h.1]
    exact ⟨rfl, by simp⟩
  · intro p hv
    rw [createOrUpdateMusician_of_fresh _ p hv h.2]
    exact ⟨rfl, by simp⟩

/-- The condition of the amended statement cannot be weakened: a startup album
collection holding the decimal rendering of a number above its size leads, after
enough creates, to an accepted upsert that takes the update branch. -/
theorem update_reached_of_stale_id : ∀ (d : Nat) (st0 : Store),
    sprintfD (st0.albums.length + 1 + d) ∈ st0.albums.map Album.ID →
      ∃ rs p, validateAlbum p = true ∧
        (createOrUpdateAlbum (run st0 rs) (some p)).1.status = 200
  | 0, st0, hmem => by
    refine ⟨[], albumA, by decide, ?_⟩
    obtain ⟨a, ha, hid⟩ := List.mem_map.1 hmem
    simp only [run]
    rw [createOrUpdateAlbum_valid st0 albumA (by decide)]
    cases h : updateAlbum { albumA with ID := sprintfD (st0.albums.length + 1) } st0.albums with
    | none => exact absurd hid ((updateAlbum_eq_none _ _).1 h a ha)
    | some l => rfl
  | d + 1, st0, hmem => by
    have hv : validateAlbum albumA = true := by decide
    cases h : updateAlbum { albumA with ID := sprintfD (st0.albums.length + 1) } st0.albums with
    | some l =>
      refine ⟨[], albumA, hv, ?_⟩
      simp only [run]
      rw [createOrUpdateAlbum_valid st0 albumA hv, h]
      rfl
    | none =>
      have hstep : (createOrUpdateAlbum st0 (some albumA)).2 =
          { st0 with
            albums := st0.albums ++ [{ albumA with ID := sprintfD (st0.albums.length + 1) }] } := by
        rw [createOrUpdateAlbum_valid st0 albumA hv, h]
      have hmem' : sprintfD ((createOrUpdateAlbum st0 (some albumA)).2.albums.length + 1 + d) ∈
          (createOrUpdateAlbum st0 (some albumA)).2.albums.map Album.ID := by
        rw [hstep]
        simp only [List.length_append, List.length_singleton, List.map_append, List.mem_append]
        left
        have e : st0.albums.length + 1 + 1 + d = st0.albums.length + 1 + (d + 1) := by omega
        rw [e]
        exact hmem
      obtain ⟨rs, p, hp, hs⟩ := update_reached_of_stale_id d _ hmem'
      exact ⟨Request.upsertAlbum (some albumA) :: rs, p, hp, hs⟩

theorem freshIds_one : FreshIds ["1"] := by
  intro j hj hmem
  have h1 : sprintfD j = sprintfD 1 := List.mem_singleton.1 hmem
  have := sprintfD_injective h1
  simp at hj
  omega

/-- A store seeded with one album whose identifier is "1": after a listing, a create
and a rejected upsert, the next accepted upserts answer 201. -/
theorem upsert_always_creates_witness :
    (FreshIds ((Store.mk [albumA] []).albums.map Album.ID) ∧
        FreshIds ((Store.mk [albumA] []).musicians.map Musician.ID)) ∧
      validateAlbum albumC = true ∧
      (createOrUpdateAlbum
        (run ⟨[albumA], []⟩ [Request.listAlbums, Request.upsertAlbum (some albumB),
          Request.upsertAlbum none]) (some albumC)).1 =
        ⟨201, Body.message "Album created successfully"⟩ ∧
      validateMusician musician7 = true ∧
      (createOrUpdateMusician
        (run ⟨[albumA], []⟩ [Request.listAlbums, Request.upsertAlbum (some albumB),
          Request.upsertAlbum none]) (some musician7)).1 =
        ⟨201, Body.message "Musician created successfully"⟩ :=
  ⟨⟨freshIds_one, freshIds_nil⟩, by decide,
    ((upsert_always_creates ⟨[albumA], []⟩ _ freshIds_one freshIds_nil).1 albumC
      (by decide)).1,
    by decide,
    ((upsert_always_creates ⟨[albumA], []⟩ _ freshIds_one freshIds_nil).2 musician7
      (by decide)).1⟩

end Jukebox
